import Mathlib

/-!
Shallow embedding of `delorean_table/src/sorter.rs`: an in-place multi-column
quicksort (Hoare partitioning with a live pivot index) over a collection of
typed, nullable columns (`Packers`), together with its validator, pre-sort
detector, null-aware multi-key comparator and cross-column row swap.

Machine integers (`usize`, `i64`) are modelled as `Nat`/`Int`.  The unsigned
subtractions that can underflow in the source (`0..n - 1` in `sort`, `j -= 1`
in `partition`) are modelled explicitly: the function returns `none` exactly
where the source would panic on underflow in a checked build.  The two loops
of the source (`partition`'s scan loop and `quicksort_by`'s recursion) are
given explicit fuel; the fuel supplied is proven sufficient on valid inputs.
Since the columns mutate in place in the source, the embedding passes the
column collection through explicitly and returns the final collection.
-/

namespace sorter

/-- Error kinds returned by `sort` (source lines 25-35). -/
inductive Error where
  | TooManyColumns
  | RepeatedColumns
  | OutOfBoundsColumnIndex
deriving DecidableEq, Repr

/-- A typed nullable column.  Modelled from the spec (§3): the `Packers`
enum itself lives outside `sorter.rs`; per the spec a column is a polymorphic
variant over element kinds (at minimum UTF-8 string, 64-bit signed integer,
64-bit float), each position holding a value or an explicit null.  Float
payloads are never compared by the sorter (`cmp` skips the kind), so they are
carried as opaque `Int` bit patterns. -/
inductive Packers where
  | String : List (Option String) → Packers
  | Integer : List (Option Int) → Packers
  | Float : List (Option Int) → Packers
deriving DecidableEq, Repr

/-- Read the cell at row `i` of a column's payload list: `some v` for a
present value, `none` for a null.  Modelled from the spec (§3): `Packer::get`
lives outside `sorter.rs`; an out-of-range row (a caller contract violation,
spec §3) reads as null. -/
def getCell (l : List (Option α)) (i : Nat) : Option α :=
  (l.get? i).join

/-- Number of rows of a column (`Packer::num_rows`, modelled from the spec:
each column is a dense sequence with one slot per row). -/
def Packers.num_rows : Packers → Nat
  | .String p => p.length
  | .Integer p => p.length
  | .Float p => p.length

/-- Exchange positions `a` and `b` of a list; identity when either index is
out of range (never reached on the in-bounds swaps the sorter performs). -/
def listSwap (l : List α) (a b : Nat) : List α :=
  match l.get? a, l.get? b with
  | some x, some y => (l.set a y).set b x
  | _, _ => l

/-- Exchange rows `a` and `b` within one column, null status included
(`Packer::swap`, modelled from the spec §4.5). -/
def Packers.swap : Packers → Nat → Nat → Packers
  | .String p, a, b => .String (listSwap p a b)
  | .Integer p, a, b => .Integer (listSwap p a b)
  | .Float p, a, b => .Float (listSwap p a b)

/-- Swap the same pair of row positions in each packer column
(source lines 158-163). -/
def swap (packers : List Packers) (a b : Nat) : List Packers :=
  packers.map (fun p => p.swap a b)

/-- Rust `Ord::cmp` on a linearly ordered scalar type. -/
def cmpVal [LinearOrder α] (x y : α) : Ordering :=
  if x < y then .lt else if x = y then .eq else .gt

/-- Rust's derived `Ord` on `Option<i64>`: `None` compares less than any
`Some`, two `Some`s compare by value (used by `cmp`'s Integer arm,
source line 146). -/
def optIntCmp : Option Int → Option Int → Ordering
  | none, none => .eq
  | none, some _ => .lt
  | some _, none => .gt
  | some x, some y => cmpVal x y

/-- One arm of `cmp`'s match on the column kind (source lines 122-153):
compare rows `a` and `b` within a single column.  `.eq` means "try the next
sort-by column".  The String arm sorts nulls last explicitly; the Integer arm
uses the derived `Option` ordering; all other kinds are skipped. -/
def colCmp (col : Packers) (a b : Nat) : Ordering :=
  match col with
  | .String p =>
    match getCell p a, getCell p b with
    | none, none => .eq
    | none, some _ => .gt
    | some _, none => .lt
    | some x, some y => cmpVal x y
  | .Integer p => optIntCmp (getCell p a) (getCell p b)
  | .Float _ => .eq

/-- Column lookup `packers[idx]` (source line 122).  An index beyond the
collection (a caller contract violation, prevented by the validator) reads as
an empty non-comparable column. -/
def colAt (packers : List Packers) (idx : Nat) : Packers :=
  (packers.get? idx).getD (Packers.Float [])

/-- The multi-key comparator (source lines 120-156): walk `sort_by` in
priority order, short-circuiting on the first column whose comparison is not
`.eq`. -/
def cmp (packers : List Packers) (a b : Nat) (sort_by : List Nat) : Ordering :=
  match sort_by with
  | [] => .eq
  | idx :: rest =>
    match colCmp (colAt packers idx) a b with
    | .eq => cmp packers a b rest
    | c => c

/-- Advance `i` while the row at `i` compares `Less` than the row at the live
pivot index (source lines 102-104).  `none` models fuel exhaustion (never
reached on valid inputs, as proven below). -/
def scanUp (packers : List Packers) (pivot : Nat) (sort_by : List Nat) :
    Nat → Nat → Option Nat
  | 0, _ => none
  | fuel + 1, i =>
    match cmp packers i pivot sort_by with
    | .lt => scanUp packers pivot sort_by fuel (i + 1)
    | _ => some i

/-- Retreat `j` while the row at `j` compares `Greater` than the row at the
live pivot index (source lines 106-108).  `j -= 1` at `j = 0` would underflow
`usize`; that (and fuel exhaustion) is modelled as `none`. -/
def scanDown (packers : List Packers) (pivot : Nat) (sort_by : List Nat) :
    Nat → Nat → Option Nat
  | 0, _ => none
  | fuel + 1, j =>
    match cmp packers j pivot sort_by with
    | .gt => if j = 0 then none else scanDown packers pivot sort_by fuel (j - 1)
    | _ => some j

/-- The partition loop (source lines 101-117): scan both cursors inward,
return the boundary `j` when they meet or cross, otherwise swap and step both
cursors.  `sfuel` bounds each inner scan, `fuel` bounds the outer loop. -/
def partitionLoop (sort_by : List Nat) (pivot sfuel : Nat) :
    Nat → List Packers → Nat → Nat → Option (List Packers × Nat)
  | 0, _, _, _ => none
  | fuel + 1, packers, i, j =>
    match scanUp packers pivot sort_by sfuel i with
    | none => none
    | some i' =>
      match scanDown packers pivot sort_by sfuel j with
      | none => none
      | some j' =>
        if i' ≥ j' then some (packers, j')
        else partitionLoop sort_by pivot sfuel fuel
          (swap packers i' j') (i' + 1) (j' - 1)

/-- Hoare-style partition of the inclusive range `rs..re` (source lines
96-118).  The pivot is the midpoint index, referenced live: comparisons
re-read the pivot row through the index even after it has been swapped away.
The fuel `re - rs + 2` is proven sufficient on valid inputs. -/
def partition (packers : List Packers) (rs re : Nat) (sort_by : List Nat) :
    Option (List Packers × Nat) :=
  partitionLoop sort_by ((rs + re) / 2) (re - rs + 2)
    (re - rs + 2) packers rs re

/-- Recursive quicksort over the inclusive range `rs..re` (source lines
86-94); a range with `rs ≥ re` needs no work.  `fuel` bounds the recursion
depth and is proven sufficient on valid inputs. -/
def quicksort_by :
    Nat → List Packers → Nat → Nat → List Nat → Option (List Packers)
  | 0, _, _, _, _ => none
  | fuel + 1, packers, rs, re, sort_by =>
    if rs ≥ re then some packers
    else
      match partition packers rs re sort_by with
      | none => none
      | some (packers', pivot) =>
        match quicksort_by fuel packers' rs pivot sort_by with
        | none => none
        | some packers'' => quicksort_by fuel packers'' (pivot + 1) re sort_by

/-- Inputs with more than this many rows get a linear pre-sort scan
(source line 39). -/
def SORTED_CHECK_SIZE : Nat := 1000

/-- The pre-sort detector's scan (source lines 69-79): `true` iff every row
`i` in `1..n` compares `Equal` to row 0 under the sort keys. -/
def presorted (packers : List Packers) (n : Nat) (sort_by : List Nat) : Bool :=
  (List.range' 1 (n - 1)).all (fun i => cmp packers 0 i sort_by == .eq)

/-- The post-validation stage of `sort` (source lines 67-83): read the row
count `n` from the first column, skip a large already-sorted input, and
otherwise run the quicksort over `0..n - 1`.  `none` models the panic of the
`usize` underflow `n - 1` at `n = 0` (and fuel exhaustion, never reached on
valid inputs). -/
def sortScan (packers : List Packers) (sort_by : List Nat) (n : Nat) :
    Option (List Packers × Option Error) :=
  if SORTED_CHECK_SIZE < n && presorted packers n sort_by then
    some (packers, none)
  else if n = 0 then none
  else (quicksort_by (n + 1) packers 0 (n - 1) sort_by).map
    (fun q => (q, none))

/-- The public sort entry point (source lines 45-84): validation first, then
the pre-sort heuristic and the quicksort.  `some (q, none)` is success with
final columns `q`; `some (q, some e)` is a returned validation error; `none`
models a panic. -/
def sort (packers : List Packers) (sort_by : List Nat) :
    Option (List Packers × Option Error) :=
  if packers.isEmpty || sort_by.isEmpty then some (packers, none)
  else if packers.length < sort_by.length then
    some (packers, some .TooManyColumns)
  else if sort_by.dedup.length < sort_by.length then
    some (packers, some .RepeatedColumns)
  else if sort_by.any (fun i => packers.length ≤ i) then
    some (packers, some .OutOfBoundsColumnIndex)
  else sortScan packers sort_by ((packers.headD (Packers.Float [])).num_rows)

/-- Whether a column's element kind takes part in comparisons (`cmp` matches
on String and Integer only; every other kind falls to the `_` arm,
source line 152). -/
def orderable : Packers → Bool
  | .String _ => true
  | .Integer _ => true
  | .Float _ => false

/-- The cell of one column at one row, tagged with the column's kind; row `i`
of a collection is the tuple of these across its columns (spec §3). -/
inductive Cell where
  | str : Option String → Cell
  | int : Option Int → Cell
  | flt : Option Int → Cell
deriving DecidableEq, Repr

/-- Tagged cell of a column at a row. -/
def cellAt (col : Packers) (i : Nat) : Cell :=
  match col with
  | .String p => .str (getCell p i)
  | .Integer p => .int (getCell p i)
  | .Float p => .flt (getCell p i)

/-- The (virtual) row tuple at position `i`: one tagged cell per column. -/
def rowTuple (packers : List Packers) (i : Nat) : List Cell :=
  packers.map (fun c => cellAt c i)

/-- The transposition of two positions, as a function on indices. -/
def transp (a b i : Nat) : Nat :=
  if i = a then b else if i = b then a else i

/-- All columns of a collection share row count `n` (the data-model invariant
of spec §3; the engine assumes it). -/
def lens (packers : List Packers) (n : Nat) : Prop :=
  ∀ c ∈ packers, c.num_rows = n

theorem length_listSwap (l : List α) (a b : Nat) :
    (listSwap l a b).length = l.length := by
  unfold listSwap
  rcases ha : l.get? a with _ | x <;> rcases hb : l.get? b with _ | y <;>
    simp [List.length_set]

theorem listSwap_get? (l : List α) {a b : Nat} (ha : a < l.length)
    (hb : b < l.length) (i : Nat) :
    (listSwap l a b).get? i = l.get? (transp a b i) := by
  obtain ⟨x, hx⟩ : ∃ x, l.get? a = some x := ⟨_, List.get?_eq_get ha⟩
  obtain ⟨y, hy⟩ : ∃ y, l.get? b = some y := ⟨_, List.get?_eq_get hb⟩
  have hb' : b < (l.set a y).length := by simpa using hb
  unfold listSwap transp
  rw [hx, hy, List.get?_set_of_lt' x _ hb', List.get?_set_of_lt' y _ ha]
  by_cases hia : i = a <;> by_cases hib : i = b
  · rw [if_pos hib.symm, if_pos hia, hy]
    calc some x = l.get? a := hx.symm
      _ = l.get? b := by rw [hia.symm.trans hib]
      _ = some y := hy
  · rw [if_neg (fun h => hib h.symm), if_pos hia.symm, if_pos hia, hy]
  · rw [if_pos hib.symm, if_neg hia, if_pos hib, hx]
  · rw [if_neg (fun h => hib h.symm), if_neg (fun h => hia h.symm),
      if_neg hia, if_neg hib]

theorem getCell_listSwap (l : List (Option α)) {a b : Nat}
    (ha : a < l.length) (hb : b < l.length) (i : Nat) :
    getCell (listSwap l a b) i = getCell l (transp a b i) := by
  unfold getCell
  rw [listSwap_get? l ha hb]

theorem num_rows_swap (c : Packers) (a b : Nat) :
    (c.swap a b).num_rows = c.num_rows := by
  cases c <;> simp [Packers.swap, Packers.num_rows, length_listSwap]

theorem lens_swap {packers : List Packers} {n : Nat} (h : lens packers n)
    (a b : Nat) : lens (swap packers a b) n := by
  intro c hc
  simp only [swap, List.mem_map] at hc
  obtain ⟨c0, hc0, rfl⟩ := hc
  rw [num_rows_swap]
  exact h c0 hc0

theorem length_swap (packers : List Packers) (a b : Nat) :
    (swap packers a b).length = packers.length := by
  simp [swap]

theorem cmpVal_refl [LinearOrder α] (x : α) : cmpVal x x = .eq := by
  simp [cmpVal]

theorem cmpVal_antisym [LinearOrder α] (x y : α) :
    cmpVal x y = (cmpVal y x).swap := by
  rcases lt_trichotomy x y with h | h | h
  · simp [cmpVal, h, not_lt_of_gt h, ne_of_gt h, Ordering.swap]
  · subst h; simp [cmpVal_refl, Ordering.swap]
  · simp [cmpVal, h, not_lt_of_gt h, ne_of_gt h, (ne_of_gt h).symm,
      not_lt_of_gt, Ordering.swap]

theorem colCmp_refl (col : Packers) (a : Nat) : colCmp col a a = .eq := by
  cases col with
  | String p => rcases h : getCell p a with _ | x <;> simp [colCmp, h, cmpVal_refl]
  | Integer p =>
    rcases h : getCell p a with _ | x <;> simp [colCmp, optIntCmp, h, cmpVal_refl]
  | Float p => rfl

theorem colCmp_antisym (col : Packers) (a b : Nat) :
    colCmp col a b = (colCmp col b a).swap := by
  cases col with
  | String p =>
    rcases ha : getCell p a with _ | x <;> rcases hb : getCell p b with _ | y <;>
      simp only [colCmp, ha, hb, Ordering.swap]
    exact cmpVal_antisym x y
  | Integer p =>
    rcases ha : getCell p a with _ | x <;> rcases hb : getCell p b with _ | y <;>
      simp only [colCmp, optIntCmp, ha, hb, Ordering.swap]
    exact cmpVal_antisym x y
  | Float p => rfl

theorem cmp_refl (packers : List Packers) (a : Nat) (sort_by : List Nat) :
    cmp packers a a sort_by = .eq := by
  induction sort_by with
  | nil => rfl
  | cons idx rest ih => simp [cmp, colCmp_refl, ih]

theorem cmp_antisym (packers : List Packers) (a b : Nat)
    (sort_by : List Nat) :
    cmp packers a b sort_by = (cmp packers b a sort_by).swap := by
  induction sort_by with
  | nil => rfl
  | cons idx rest ih =>
    simp only [cmp]
    rw [colCmp_antisym]
    rcases h : colCmp (colAt packers idx) b a with _ | _ | _ <;>
      simp [Ordering.swap, ih]

theorem colCmp_swap {col : Packers} {n : Nat} (hc : col.num_rows = n)
    {a b : Nat} (ha : a < n) (hb : b < n) (x y : Nat) :
    colCmp (col.swap a b) x y = colCmp col (transp a b x) (transp a b y) := by
  cases col with
  | String p =>
    simp only [Packers.num_rows] at hc
    subst hc
    simp [Packers.swap, colCmp, getCell_listSwap p ha hb]
  | Integer p =>
    simp only [Packers.num_rows] at hc
    subst hc
    simp [Packers.swap, colCmp, getCell_listSwap p ha hb]
  | Float p => rfl

theorem listSwap_nil (a b : Nat) : listSwap ([] : List α) a b = [] := rfl

theorem colAt_swap (packers : List Packers) (a b idx : Nat) :
    colAt (swap packers a b) idx = (colAt packers idx).swap a b := by
  unfold colAt swap
  rw [List.get?_map]
  rcases hg : packers.get? idx with _ | col
  · simp [Packers.swap, listSwap_nil]
  · simp

theorem cmp_swap {packers : List Packers} {n : Nat} (hlen : lens packers n)
    {a b : Nat} (ha : a < n) (hb : b < n) (x y : Nat) (sort_by : List Nat) :
    cmp (swap packers a b) x y sort_by =
      cmp packers (transp a b x) (transp a b y) sort_by := by
  induction sort_by with
  | nil => rfl
  | cons idx rest ih =>
    simp only [cmp]
    have hcol : colCmp (colAt (swap packers a b) idx) x y =
        colCmp (colAt packers idx) (transp a b x) (transp a b y) := by
      rw [colAt_swap]
      rcases hg : packers.get? idx with _ | col
      · have hca : colAt packers idx = Packers.Float [] := by
          unfold colAt; rw [hg]; rfl
        rw [hca]; rfl
      · have hmem : col ∈ packers := List.get?_mem hg
        have hca : colAt packers idx = col := by
          unfold colAt; rw [hg]; rfl
        rw [hca]
        exact colCmp_swap (hlen col hmem) ha hb x y
    rw [hcol]
    rcases h : colCmp (colAt packers idx)
        (transp a b x) (transp a b y) with _ | _ | _ <;> simp [ih]

theorem cellAt_swap {col : Packers} {n : Nat} (hc : col.num_rows = n)
    {a b : Nat} (ha : a < n) (hb : b < n) (i : Nat) :
    cellAt (col.swap a b) i = cellAt col (transp a b i) := by
  cases col with
  | String p =>
    simp only [Packers.num_rows] at hc
    subst hc
    simp [Packers.swap, cellAt, getCell_listSwap p ha hb]
  | Integer p =>
    simp only [Packers.num_rows] at hc
    subst hc
    simp [Packers.swap, cellAt, getCell_listSwap p ha hb]
  | Float p =>
    simp only [Packers.num_rows] at hc
    subst hc
    simp [Packers.swap, cellAt, getCell_listSwap p ha hb]

theorem rowTuple_swap {packers : List Packers} {n : Nat}
    (hlen : lens packers n) {a b : Nat} (ha : a < n) (hb : b < n) (i : Nat) :
    rowTuple (swap packers a b) i = rowTuple packers (transp a b i) := by
  simp only [rowTuple, swap, List.map_map]
  apply List.map_congr_left
  intro c hc
  exact cellAt_swap (hlen c hc) ha hb i

theorem swap_ne_lt {o : Ordering} (h : o ≠ .gt) : o.swap ≠ .lt := by
  cases o <;> simp [Ordering.swap] at h ⊢

theorem swap_ne_gt {o : Ordering} (h : o ≠ .lt) : o.swap ≠ .gt := by
  cases o <;> simp [Ordering.swap] at h ⊢

/-- Two collections whose virtual rows are related by one permutation of the
first `n` positions, applied identically to every column. -/
def RowPerm (n : Nat) (A B : List Packers) : Prop :=
  ∃ σ : Equiv.Perm (Fin n), ∀ x : Fin n, rowTuple B x = rowTuple A (σ x)

theorem rowPerm_refl (n : Nat) (A : List Packers) : RowPerm n A A :=
  ⟨Equiv.refl _, fun _ => rfl⟩

theorem rowPerm_trans {n : Nat} {A B C : List Packers}
    (h1 : RowPerm n A B) (h2 : RowPerm n B C) : RowPerm n A C := by
  obtain ⟨σ1, hσ1⟩ := h1
  obtain ⟨σ2, hσ2⟩ := h2
  exact ⟨σ2.trans σ1, fun x => (hσ2 x).trans (hσ1 (σ2 x))⟩

theorem rowPerm_swap {A : List Packers} {n : Nat} (hlen : lens A n)
    {a b : Nat} (ha : a < n) (hb : b < n) : RowPerm n A (swap A a b) := by
  refine ⟨Equiv.swap ⟨a, ha⟩ ⟨b, hb⟩, fun x => ?_⟩
  rw [rowTuple_swap hlen ha hb]
  congr 1
  rw [Equiv.swap_apply_def]
  unfold transp
  by_cases h1 : (x : Nat) = a
  · rw [if_pos h1, if_pos (Fin.ext h1)]
  · rw [if_neg h1, if_neg (fun hc => h1 (congrArg Fin.val hc))]
    by_cases h2 : (x : Nat) = b
    · rw [if_pos h2, if_pos (Fin.ext h2)]
    · rw [if_neg h2, if_neg (fun hc => h2 (congrArg Fin.val hc))]

theorem scanUp_spec (packers : List Packers) (pivot : Nat)
    (sort_by : List Nat) :
    ∀ fuel i ii, i ≤ ii → cmp packers ii pivot sort_by ≠ .lt →
      ii - i + 1 ≤ fuel →
      ∃ i', scanUp packers pivot sort_by fuel i = some i' ∧
        i ≤ i' ∧ i' ≤ ii ∧ cmp packers i' pivot sort_by ≠ .lt ∧
        ∀ k, i ≤ k → k < i' → cmp packers k pivot sort_by = .lt := by
  intro fuel
  induction fuel with
  | zero => intro i ii _ _ h3; omega
  | succ f ih =>
    intro i ii h1 h2 h3
    by_cases hc : cmp packers i pivot sort_by = .lt
    · have hne : i ≠ ii := fun h => h2 (h ▸ hc)
      obtain ⟨i', hrec, ha, hb2, hcm, hmin⟩ :=
        ih (i + 1) ii (by omega) h2 (by omega)
      refine ⟨i', ?_, by omega, hb2, hcm, ?_⟩
      · unfold scanUp
        rw [hc]
        exact hrec
      · intro k hk1 hk2
        rcases Nat.eq_or_lt_of_le hk1 with rfl | hlt
        · exact hc
        · exact hmin k hlt hk2
    · have hstep : scanUp packers pivot sort_by (f + 1) i = some i := by
        unfold scanUp
        rcases hcc : cmp packers i pivot sort_by with _ | _ | _
        · exact absurd hcc hc
        · rfl
        · rfl
      exact ⟨i, hstep, le_refl i, h1, hc,
        fun k hk1 hk2 => (Nat.lt_irrefl i (Nat.lt_of_le_of_lt hk1 hk2)).elim⟩

theorem scanDown_spec (packers : List Packers) (pivot : Nat)
    (sort_by : List Nat) :
    ∀ fuel j jj, jj ≤ j → cmp packers jj pivot sort_by ≠ .gt →
      j - jj + 1 ≤ fuel →
      ∃ j', scanDown packers pivot sort_by fuel j = some j' ∧
        jj ≤ j' ∧ j' ≤ j ∧ cmp packers j' pivot sort_by ≠ .gt ∧
        ∀ k, k ≤ j → j' < k → cmp packers k pivot sort_by = .gt := by
  intro fuel
  induction fuel with
  | zero => intro j jj _ _ h3; omega
  | succ f ih =>
    intro j jj h1 h2 h3
    by_cases hc : cmp packers j pivot sort_by = .gt
    · have hne : j ≠ jj := fun h => h2 (h ▸ hc)
      have hj0 : j ≠ 0 := by omega
      obtain ⟨j', hrec, ha, hb2, hcm, hmin⟩ :=
        ih (j - 1) jj (by omega) h2 (by omega)
      refine ⟨j', ?_, ha, by omega, hcm, ?_⟩
      · unfold scanDown
        rw [hc, if_neg hj0]
        exact hrec
      · intro k hk1 hk2
        rcases Nat.eq_or_lt_of_le hk1 with rfl | hlt
        · exact hc
        · exact hmin k (by omega) hk2
    · have hstep : scanDown packers pivot sort_by (f + 1) j = some j := by
        unfold scanDown
        rcases hcc : cmp packers j pivot sort_by with _ | _ | _
        · rfl
        · rfl
        · exact absurd hcc hc
      exact ⟨j, hstep, h1, le_refl j, hc,
        fun k hk1 hk2 => (Nat.lt_irrefl j (Nat.lt_of_lt_of_le hk2 hk1)).elim⟩

theorem transp_left (a b : Nat) : transp a b a = b := by
  unfold transp
  rw [if_pos rfl]

theorem transp_right {a b : Nat} (hne : b ≠ a) : transp a b b = a := by
  unfold transp
  rw [if_neg hne, if_pos rfl]

theorem transp_other {a b p : Nat} (hpa : p ≠ a) (hpb : p ≠ b) :
    transp a b p = p := by
  unfold transp
  rw [if_neg hpa, if_neg hpb]

theorem partitionLoop_spec (sort_by : List Nat) (n rs re p : Nat)
    (hren : re < n) (hplo : rs ≤ p) (hphi : p < re) :
    ∀ fuel A i j,
      lens A n →
      rs ≤ i → i ≤ re → rs ≤ j → j ≤ re →
      (∃ ii, i ≤ ii ∧ ii ≤ re ∧ cmp A ii p sort_by ≠ .lt) →
      (∃ jj, rs ≤ jj ∧ jj ≤ j ∧ cmp A jj p sort_by ≠ .gt) →
      (j < re ∨ ∃ ii, i ≤ ii ∧ ii < re ∧ cmp A ii p sort_by ≠ .lt) →
      j + 2 ≤ fuel + i → 1 ≤ fuel →
      ∃ A' j', partitionLoop sort_by p (re - rs + 2) fuel A i j =
          some (A', j') ∧
        rs ≤ j' ∧ j' < re ∧ lens A' n ∧ A'.length = A.length ∧
        RowPerm n A A' := by
  intro fuel
  induction fuel with
  | zero => intro A i j _ _ _ _ _ _ _ _ _ hpos; omega
  | succ f ih =>
    intro A i j hlen hi1 hi2 hj1 hj2 hup hdown hthird hfuel _
    obtain ⟨ii, hii1, hii2, hii3⟩ := hup
    obtain ⟨jj, hjj1, hjj2, hjj3⟩ := hdown
    obtain ⟨i', hsu, hii'1, hii'2, hcmpi, hminU⟩ :=
      scanUp_spec A p sort_by (re - rs + 2) i ii hii1 hii3 (by omega)
    obtain ⟨j', hsd, hjj'1, hjj'2, hcmpj, hminD⟩ :=
      scanDown_spec A p sort_by (re - rs + 2) j jj hjj2 hjj3 (by omega)
    have hi're : i' ≤ re := le_trans hii'2 hii2
    have hj'rs : rs ≤ j' := le_trans hjj1 hjj'1
    by_cases hij : i' ≥ j'
    · refine ⟨A, j', ?_, hj'rs, ?_, hlen, rfl, rowPerm_refl n A⟩
      · unfold partitionLoop
        simp only [hsu, hsd]
        rw [if_pos hij]
      · rcases hthird with h | ⟨ii2, hii2a, hii2b, hii2c⟩
        · omega
        · by_cases hlt : ii2 < i'
          · exact absurd (hminU ii2 hii2a hlt) hii2c
          · omega
    · push_neg at hij
      have hi'n : i' < n := by omega
      have hj'n : j' < n := by omega
      have hlen1 : lens (swap A i' j') n := lens_swap hlen i' j'
      have htr : ∀ x y, cmp (swap A i' j') x y sort_by =
          cmp A (transp i' j' x) (transp i' j' y) sort_by :=
        fun x y => cmp_swap hlen hi'n hj'n x y sort_by
      have tii : transp i' j' i' = j' := transp_left i' j'
      have tjj : transp i' j' j' = i' := transp_right (by omega)
      have hup' : ∃ ii, i' + 1 ≤ ii ∧ ii ≤ re ∧
          cmp (swap A i' j') ii p sort_by ≠ .lt := by
        by_cases hpi : p = i'
        · have hji : cmp A j' i' sort_by ≠ .gt := by
            rw [← hpi]
            exact hcmpj
          refine ⟨j', by omega, by omega, ?_⟩
          rw [htr, tjj, hpi, tii, cmp_antisym]
          exact swap_ne_lt hji
        · by_cases hpj : p = j'
          · refine ⟨p, by omega, by omega, ?_⟩
            rw [cmp_refl]
            decide
          · refine ⟨j', by omega, by omega, ?_⟩
            rw [htr, tjj, transp_other hpi hpj]
            exact hcmpi
      have hdown' : ∃ jj, rs ≤ jj ∧ jj ≤ j' - 1 ∧
          cmp (swap A i' j') jj p sort_by ≠ .gt := by
        by_cases hpi : p = i'
        · refine ⟨p, by omega, by omega, ?_⟩
          rw [cmp_refl]
          decide
        · by_cases hpj : p = j'
          · have hij' : cmp A i' j' sort_by ≠ .lt := by
              rw [← hpj]
              exact hcmpi
            refine ⟨i', by omega, by omega, ?_⟩
            rw [htr, tii, hpj, tjj, cmp_antisym]
            exact swap_ne_gt hij'
          · refine ⟨i', by omega, by omega, ?_⟩
            rw [htr, tii, transp_other hpi hpj]
            exact hcmpj
      obtain ⟨A2, j2, hrec, hj2a, hj2b, hlen2, hlength2, hperm2⟩ :=
        ih (swap A i' j') (i' + 1) (j' - 1) hlen1 (by omega) (by omega)
          (by omega) (by omega) hup' hdown' (Or.inl (by omega))
          (by omega) (by omega)
      refine ⟨A2, j2, ?_, hj2a, hj2b, hlen2, ?_,
        rowPerm_trans (rowPerm_swap hlen hi'n hj'n) hperm2⟩
      · unfold partitionLoop
        simp only [hsu, hsd]
        rw [if_neg (by omega : ¬ i' ≥ j')]
        exact hrec
      · rw [hlength2, length_swap]

theorem partition_spec (sort_by : List Nat) (n rs re : Nat)
    (A : List Packers) (hlen : lens A n) (hrange : rs < re) (hren : re < n) :
    ∃ A' j', partition A rs re sort_by = some (A', j') ∧
      rs ≤ j' ∧ j' < re ∧ lens A' n ∧ A'.length = A.length ∧
      RowPerm n A A' := by
  have hplo : rs ≤ (rs + re) / 2 := by omega
  have hphi : (rs + re) / 2 < re := by omega
  unfold partition
  exact partitionLoop_spec sort_by n rs re ((rs + re) / 2) hren hplo hphi
    (re - rs + 2) A rs re hlen (le_refl rs) (le_of_lt hrange)
    (le_of_lt hrange) (le_refl re)
    ⟨(rs + re) / 2, hplo, le_of_lt hphi, by rw [cmp_refl]; decide⟩
    ⟨(rs + re) / 2, hplo, le_of_lt hphi, by rw [cmp_refl]; decide⟩
    (Or.inr ⟨(rs + re) / 2, hplo, hphi, by rw [cmp_refl]; decide⟩)
    (by omega) (by omega)

theorem quicksort_spec (sort_by : List Nat) (n : Nat) :
    ∀ fuel (A : List Packers) rs re, lens A n → re < n → re - rs < fuel →
      ∃ A', quicksort_by fuel A rs re sort_by = some A' ∧
        lens A' n ∧ A'.length = A.length ∧ RowPerm n A A' := by
  intro fuel
  induction fuel with
  | zero => intro A rs re _ _ h; omega
  | succ f ih =>
    intro A rs re hlen hren hfuel
    by_cases hse : rs ≥ re
    · refine ⟨A, ?_, hlen, rfl, rowPerm_refl n A⟩
      unfold quicksort_by
      rw [if_pos hse]
    · push_neg at hse
      obtain ⟨A1, piv, hpart, hpiva, hpivb, hlen1, hlength1, hperm1⟩ :=
        partition_spec sort_by n rs re A hlen hse hren
      obtain ⟨A2, hq1, hlen2, hlength2, hperm2⟩ :=
        ih A1 rs piv hlen1 (by omega) (by omega)
      obtain ⟨A3, hq2, hlen3, hlength3, hperm3⟩ :=
        ih A2 (piv + 1) re hlen2 hren (by omega)
      refine ⟨A3, ?_, hlen3, ?_,
        rowPerm_trans hperm1 (rowPerm_trans hperm2 hperm3)⟩
      · unfold quicksort_by
        rw [if_neg (by omega : ¬ rs ≥ re)]
        simp only [hpart, hq1]
        exact hq2
      · rw [hlength3, hlength2, hlength1]

theorem dedup_length_lt_iff (l : List Nat) :
    l.dedup.length < l.length ↔ ¬ l.Nodup := by
  constructor
  · intro h hnd
    rw [List.dedup_eq_self.mpr hnd] at h
    exact lt_irrefl _ h
  · intro hnd
    rcases lt_or_eq_of_le l.dedup_sublist.length_le with h | h
    · exact h
    · exact absurd (List.Sublist.eq_of_length l.dedup_sublist h ▸ l.nodup_dedup)
        hnd

theorem colCmp_eq_of_not_orderable {col : Packers}
    (hord : orderable col = false) (a b : Nat) : colCmp col a b = .eq := by
  cases col <;> simp_all [orderable, colCmp]

/-- C6: if the column collection is empty or the sort-key list is empty,
`sort` returns success immediately with the collection unchanged. -/
theorem noop_on_empty (packers : List Packers) (sort_by : List Nat)
    (h : packers = [] ∨ sort_by = []) :
    sort packers sort_by = some (packers, none) := by
  have hA : (packers.isEmpty || sort_by.isEmpty) = true := by
    rcases h with rfl | rfl <;> simp
  unfold sort
  rw [if_pos hA]

/-- C6 witness: the no-op success at a concrete empty collection. -/
theorem noop_on_empty_witness :
    sort [] [0] = some ([], none) := noop_on_empty [] [0] (Or.inl rfl)

/-- C9: with a non-empty collection whose columns have zero rows and a valid
non-empty key list, `sort` hits the unguarded `0..n - 1` subtraction with
`n = 0` (modelled as `none`, the panic) instead of succeeding as a no-op. -/
theorem zero_rows_not_total :
    [Packers.Integer []] ≠ ([] : List Packers) ∧
    (Packers.Integer []).num_rows = 0 ∧
    sort [Packers.Integer []] [0] = none := by decide

/-- C8: a key column whose kind is outside the comparable set (here: Float)
contributes no ordering information — the comparator gives the same result
with that key removed from the list. -/
theorem skip_not_orderable (packers : List Packers) (a b idx : Nat)
    (col : Packers) (hcol : packers.get? idx = some col)
    (hord : orderable col = false) (pre post : List Nat) :
    cmp packers a b (pre ++ idx :: post) = cmp packers a b (pre ++ post) := by
  induction pre with
  | nil =>
    have hca : colAt packers idx = col := by unfold colAt; rw [hcol]; rfl
    simp [cmp, hca, colCmp_eq_of_not_orderable hord]
  | cons k ks ih =>
    simp only [List.cons_append, cmp, List.append_eq]
    rw [ih]

/-- C8 witness: a Float key column between is skipped at a concrete input. -/
theorem skip_not_orderable_witness :
    cmp [Packers.Integer [some 1, some 2], Packers.Float [some 5, some 6]]
      0 1 [1, 0] =
    cmp [Packers.Integer [some 1, some 2], Packers.Float [some 5, some 6]]
      0 1 [0] :=
  skip_not_orderable
    [Packers.Integer [some 1, some 2], Packers.Float [some 5, some 6]]
    0 1 1 (Packers.Float [some 5, some 6]) rfl rfl [] [0]

/-- C1 counterexample: in an Integer key column, a null on the left against a
present value on the right yields `Less`, not `Greater` — integer nulls sort
first, contradicting the claim that nulls sort last for Integer columns. -/
theorem integer_null_sorts_first :
    getCell [none, some (0 : Int)] 0 = none ∧
    getCell [none, some (0 : Int)] 1 = some 0 ∧
    cmp [Packers.Integer [none, some 0]] 0 1 [0] = .lt ∧
    Ordering.lt ≠ Ordering.gt := by decide

/-- C1 (amended): when the comparator reaches a key column, a String column
sorts nulls last (left-only null is `Greater`, right-only null is `Less`),
while an Integer column sorts nulls first via the derived Option ordering
(left-only null is `Less`, right-only null is `Greater`). -/
theorem null_ordering_per_kind (packers : List Packers) (a b idx : Nat)
    (rest : List Nat) :
    (∀ p, colAt packers idx = Packers.String p →
      ((getCell p a = none → (∃ v, getCell p b = some v) →
          cmp packers a b (idx :: rest) = .gt) ∧
       ((∃ v, getCell p a = some v) → getCell p b = none →
          cmp packers a b (idx :: rest) = .lt))) ∧
    (∀ p, colAt packers idx = Packers.Integer p →
      ((getCell p a = none → (∃ v, getCell p b = some v) →
          cmp packers a b (idx :: rest) = .lt) ∧
       ((∃ v, getCell p a = some v) → getCell p b = none →
          cmp packers a b (idx :: rest) = .gt))) := by
  constructor
  · intro p hp
    constructor
    · rintro ha ⟨v, hv⟩
      simp [cmp, hp, colCmp, ha, hv]
    · rintro ⟨v, hv⟩ hb
      simp [cmp, hp, colCmp, hv, hb]
  · intro p hp
    constructor
    · rintro ha ⟨v, hv⟩
      simp [cmp, hp, colCmp, optIntCmp, ha, hv]
    · rintro ⟨v, hv⟩ hb
      simp [cmp, hp, colCmp, optIntCmp, hv, hb]

/-- C1 (amended) witness: both kinds at concrete one-key collections. -/
theorem null_ordering_per_kind_witness :
    cmp [Packers.String [none, some "a"]] 0 1 [0] = .gt ∧
    cmp [Packers.Integer [none, some 0]] 0 1 [0] = .lt := by
  constructor
  · exact ((null_ordering_per_kind [Packers.String [none, some "a"]]
      0 1 0 []).1 [none, some "a"] rfl).1 rfl ⟨"a", rfl⟩
  · exact ((null_ordering_per_kind [Packers.Integer [none, some 0]]
      0 1 0 []).2 [none, some 0] rfl).1 rfl ⟨0, rfl⟩

/-- C2: the sort is not correct — on the single Integer column
`[2, 3, 1, 0]` sorted by itself, `sort` reports success but produces
`[0, 2, 1, 3]`, in which the adjacent rows 1 and 2 compare `Greater`.  The
cause is Hoare partitioning against a live pivot index whose row can be
swapped away mid-partition, contradicting the module's own documentation
that the function sorts in ascending order. -/
theorem sort_output_not_sorted :
    sort [Packers.Integer [some 2, some 3, some 1, some 0]] [0] =
      some ([Packers.Integer [some 0, some 2, some 1, some 3]], none) ∧
    cmp [Packers.Integer [some 0, some 2, some 1, some 3]] 1 2 [0] = .gt := by
  exact ⟨by decide, by decide⟩

/-- C10: on valid inputs (unique in-bounds keys, equal-length columns, at
least one row) the partition machinery is total and stays in range: the
upward scan stops at or before any non-`Less` stopper (in particular the
pivot, which compares `Equal` to itself) so `i` never passes `range.end`;
the downward scan stops at or after any non-`Greater` stopper so `j` never
drops below `range.start` (no `usize` underflow); `partition` returns a
boundary in `[range.start, range.end)`, making both recursive subranges
strictly smaller; and `quicksort_by` terminates (returns `some`) with any
fuel exceeding the range width. -/
theorem partition_bounds_and_termination (packers : List Packers)
    (sort_by : List Nat) (n rs re : Nat)
    (hlen : lens packers n) (hnd : sort_by.Nodup)
    (hkeys : ∀ i ∈ sort_by, i < packers.length) (hn : 1 ≤ n)
    (hrange : rs < re) (hren : re < n) :
    (∀ B i ii, rs ≤ i → i ≤ ii → ii ≤ re →
      cmp B ii ((rs + re) / 2) sort_by ≠ .lt →
      ∃ i', scanUp B ((rs + re) / 2) sort_by (re - rs + 2) i = some i' ∧
        i' ≤ re) ∧
    (∀ B j jj, j ≤ re → rs ≤ jj → jj ≤ j →
      cmp B jj ((rs + re) / 2) sort_by ≠ .gt →
      ∃ j', scanDown B ((rs + re) / 2) sort_by (re - rs + 2) j = some j' ∧
        rs ≤ j') ∧
    (∃ q j', partition packers rs re sort_by = some (q, j') ∧
      rs ≤ j' ∧ j' < re ∧ j' - rs < re - rs ∧ re - (j' + 1) < re - rs) ∧
    (∀ fuel, re - rs < fuel →
      ∃ q, quicksort_by fuel packers rs re sort_by = some q) := by
  refine ⟨?_, ?_, ?_, ?_⟩
  · intro B i ii h1 h2 h3 h4
    obtain ⟨i', hsu, _, hle, _, _⟩ :=
      scanUp_spec B ((rs + re) / 2) sort_by (re - rs + 2) i ii h2 h4
        (by omega)
    exact ⟨i', hsu, le_trans hle h3⟩
  · intro B j jj h1 h2 h3 h4
    obtain ⟨j', hsd, hge, _, _, _⟩ :=
      scanDown_spec B ((rs + re) / 2) sort_by (re - rs + 2) j jj h3 h4
        (by omega)
    exact ⟨j', hsd, le_trans h2 hge⟩
  · obtain ⟨q, j', hp, ha, hb2, _, _, _⟩ :=
      partition_spec sort_by n rs re packers hlen hrange hren
    exact ⟨q, j', hp, ha, hb2, by omega, by omega⟩
  · intro fuel hf
    obtain ⟨q, hq, _, _, _⟩ :=
      quicksort_spec sort_by n fuel packers rs re hlen hren hf
    exact ⟨q, hq⟩

/-- C10 witness: the instantiated conclusion at a two-row Integer column. -/
theorem partition_bounds_and_termination_witness :
    (∀ B i ii, 0 ≤ i → i ≤ ii → ii ≤ 1 →
      cmp B ii ((0 + 1) / 2) [0] ≠ .lt →
      ∃ i', scanUp B ((0 + 1) / 2) [0] (1 - 0 + 2) i = some i' ∧
        i' ≤ 1) ∧
    (∀ B j jj, j ≤ 1 → 0 ≤ jj → jj ≤ j →
      cmp B jj ((0 + 1) / 2) [0] ≠ .gt →
      ∃ j', scanDown B ((0 + 1) / 2) [0] (1 - 0 + 2) j = some j' ∧
        0 ≤ j') ∧
    (∃ q j', partition [Packers.Integer [some 2, some 1]] 0 1 [0] =
        some (q, j') ∧
      0 ≤ j' ∧ j' < 1 ∧ j' - 0 < 1 - 0 ∧ 1 - (j' + 1) < 1 - 0) ∧
    (∀ fuel, 1 - 0 < fuel →
      ∃ q, quicksort_by fuel [Packers.Integer [some 2, some 1]] 0 1 [0] =
        some q) :=
  partition_bounds_and_termination [Packers.Integer [some 2, some 1]] [0]
    2 0 1 (by unfold lens; decide) (by decide) (by decide) (by decide)
    (by decide) (by decide)

/-- C3: on success over a collection of equal-length columns, the output is
the input's rows under a single permutation applied identically to every
column (non-key columns included), with the column count and every column's
length unchanged. -/
theorem sort_permutes_rows (packers : List Packers) (sort_by : List Nat)
    (q : List Packers) (n : Nat) (hlen : lens packers n)
    (hsort : sort packers sort_by = some (q, none)) :
    q.length = packers.length ∧ lens q n ∧ RowPerm n packers q := by
  unfold sort at hsort
  by_cases hA : (packers.isEmpty || sort_by.isEmpty) = true
  · rw [if_pos hA] at hsort
    have hq : packers = q := by simpa using hsort
    subst hq
    exact ⟨rfl, hlen, rowPerm_refl n packers⟩
  · rw [if_neg hA] at hsort
    by_cases h1 : packers.length < sort_by.length
    · rw [if_pos h1] at hsort
      simp at hsort
    · rw [if_neg h1] at hsort
      by_cases h2 : sort_by.dedup.length < sort_by.length
      · rw [if_pos h2] at hsort
        simp at hsort
      · rw [if_neg h2] at hsort
        by_cases h3 : sort_by.any (fun i => packers.length ≤ i) = true
        · rw [if_pos h3] at hsort
          simp at hsort
        · rw [if_neg h3] at hsort
          unfold sortScan at hsort
          by_cases hb : (SORTED_CHECK_SIZE <
              (packers.headD (Packers.Float [])).num_rows &&
              presorted packers
                ((packers.headD (Packers.Float [])).num_rows) sort_by) =
                  true
          · rw [if_pos hb] at hsort
            have hq : packers = q := by simpa using hsort
            subst hq
            exact ⟨rfl, hlen, rowPerm_refl n packers⟩
          · rw [if_neg hb] at hsort
            by_cases hz : (packers.headD (Packers.Float [])).num_rows = 0
            · rw [if_pos hz] at hsort
              simp at hsort
            · rw [if_neg hz] at hsort
              rw [Option.map_eq_some'] at hsort
              obtain ⟨q0, hq0, heq⟩ := hsort
              have hq : q0 = q := by
                simpa using congrArg Prod.fst heq
              have hpne : packers ≠ [] := by
                intro hnil
                subst hnil
                simp at hA
              obtain ⟨p0, ps, rfl⟩ := List.exists_cons_of_ne_nil hpne
              have hn0 : ((p0 :: ps).headD (Packers.Float [])).num_rows =
                  n := by
                simp only [List.headD_cons]
                exact hlen p0 (List.mem_cons_self p0 ps)
              rw [hn0] at hq0 hz
              obtain ⟨A', hqs, hlen', hlength', hperm'⟩ :=
                quicksort_spec sort_by n (n + 1) (p0 :: ps) 0 (n - 1) hlen
                  (by omega) (by omega)
              rw [hqs] at hq0
              have hq' : A' = q := (Option.some.inj hq0).trans hq
              subst hq'
              exact ⟨hlength', hlen', hperm'⟩

/-- C3 witness: sorting a concrete two-row Integer column permutes its
rows. -/
theorem sort_permutes_rows_witness :
    [Packers.Integer [some 1, some 2]].length =
      [Packers.Integer [some 2, some 1]].length ∧
    lens [Packers.Integer [some 1, some 2]] 2 ∧
    RowPerm 2 [Packers.Integer [some 2, some 1]]
      [Packers.Integer [some 1, some 2]] :=
  sort_permutes_rows [Packers.Integer [some 2, some 1]] [0]
    [Packers.Integer [some 1, some 2]] 2 (by unfold lens; decide)
    (by decide)

theorem sortScan_no_error (packers : List Packers) (sort_by : List Nat)
    (n : Nat) (q : List Packers) (oe : Option Error)
    (h : sortScan packers sort_by n = some (q, oe)) : oe = none := by
  unfold sortScan at h
  by_cases hb : (SORTED_CHECK_SIZE < n && presorted packers n sort_by) = true
  · rw [if_pos hb] at h
    simp only [Option.some.injEq, Prod.mk.injEq] at h
    exact h.2.symm
  · rw [if_neg hb] at h
    by_cases hz : n = 0
    · rw [if_pos hz] at h
      simp at h
    · rw [if_neg hz] at h
      rw [Option.map_eq_some'] at h
      obtain ⟨q', _, heq⟩ := h
      simp only [Prod.mk.injEq] at heq
      exact heq.2.symm

/-- C5: whenever `sort` returns a validation error, the column collection is
returned completely unmodified. -/
theorem error_leaves_unmodified (packers : List Packers) (sort_by : List Nat)
    (q : List Packers) (e : Error)
    (h : sort packers sort_by = some (q, some e)) : q = packers := by
  unfold sort at h
  by_cases hA : (packers.isEmpty || sort_by.isEmpty) = true
  · rw [if_pos hA] at h
    simp only [Option.some.injEq, Prod.mk.injEq] at h
    simp at h
  · rw [if_neg hA] at h
    by_cases h1 : packers.length < sort_by.length
    · rw [if_pos h1] at h
      simp only [Option.some.injEq, Prod.mk.injEq] at h
      exact h.1.symm
    · rw [if_neg h1] at h
      by_cases h2 : sort_by.dedup.length < sort_by.length
      · rw [if_pos h2] at h
        simp only [Option.some.injEq, Prod.mk.injEq] at h
        exact h.1.symm
      · rw [if_neg h2] at h
        by_cases h3 : sort_by.any (fun i => packers.length ≤ i) = true
        · rw [if_pos h3] at h
          simp only [Option.some.injEq, Prod.mk.injEq] at h
          exact h.1.symm
        · rw [if_neg h3] at h
          exact absurd (sortScan_no_error _ _ _ _ _ h) (by simp)

/-- C5 witness: a concrete erroring call returns the collection unchanged. -/
theorem error_leaves_unmodified_witness :
    [Packers.Integer [some 7]] = [Packers.Integer [some 7]] :=
  error_leaves_unmodified [Packers.Integer [some 7]] [0, 1]
    [Packers.Integer [some 7]] Error.TooManyColumns (by decide)

/-- C4 counterexample: with one column and key list `[0, 0]` the index 0 is
repeated, yet `sort` reports `TooManyColumns`, not `RepeatedColumns` — the
length check fires first, so "RepeatedColumns whenever some key index appears
more than once" fails as stated. -/
theorem repeated_key_reports_too_many :
    ¬ ([0, 0] : List Nat).Nodup ∧
    sort [Packers.Integer [some 0]] [0, 0] =
      some ([Packers.Integer [some 0]], some Error.TooManyColumns) ∧
    Error.TooManyColumns ≠ Error.RepeatedColumns := by decide

/-- C4 (amended): for a non-empty collection and non-empty key list, `sort`
returns an error iff one of the three validation conditions holds, with the
kinds assigned in check order: `TooManyColumns` if the key list is longer
than the column count; otherwise `RepeatedColumns` if some key index
repeats; otherwise `OutOfBoundsColumnIndex` if some key index is at least
the column count. -/
theorem validation_errors (packers : List Packers) (sort_by : List Nat)
    (hp : packers ≠ []) (hs : sort_by ≠ []) :
    ((∃ q e, sort packers sort_by = some (q, some e)) ↔
      (packers.length < sort_by.length ∨ ¬ sort_by.Nodup ∨
        ∃ i ∈ sort_by, packers.length ≤ i)) ∧
    ((∃ q, sort packers sort_by = some (q, some Error.TooManyColumns)) ↔
      packers.length < sort_by.length) ∧
    ((∃ q, sort packers sort_by = some (q, some Error.RepeatedColumns)) ↔
      (¬ packers.length < sort_by.length ∧ ¬ sort_by.Nodup)) ∧
    ((∃ q, sort packers sort_by =
        some (q, some Error.OutOfBoundsColumnIndex)) ↔
      (¬ packers.length < sort_by.length ∧ sort_by.Nodup ∧
        ∃ i ∈ sort_by, packers.length ≤ i)) := by
  have hA : (packers.isEmpty || sort_by.isEmpty) = false := by
    simp [List.isEmpty_iff, hp, hs]
  have hsort : sort packers sort_by =
      (if packers.length < sort_by.length then
        some (packers, some .TooManyColumns)
      else if sort_by.dedup.length < sort_by.length then
        some (packers, some .RepeatedColumns)
      else if sort_by.any (fun i => packers.length ≤ i) then
        some (packers, some .OutOfBoundsColumnIndex)
      else sortScan packers sort_by
        ((packers.headD (Packers.Float [])).num_rows)) := by
    unfold sort
    rw [hA]
    rfl
  by_cases h1 : packers.length < sort_by.length
  · rw [hsort, if_pos h1]
    refine ⟨?_, ?_, ?_, ?_⟩ <;> simp [h1]
  · rw [hsort, if_neg h1]
    by_cases h2 : sort_by.dedup.length < sort_by.length
    · have hnd : ¬ sort_by.Nodup := (dedup_length_lt_iff _).mp h2
      rw [if_pos h2]
      refine ⟨?_, ?_, ?_, ?_⟩ <;> simp [h1, hnd]
    · have hnd : sort_by.Nodup := by
        by_contra hc
        exact h2 ((dedup_length_lt_iff _).mpr hc)
      rw [if_neg h2]
      by_cases h3 : sort_by.any (fun i => packers.length ≤ i) = true
      · have hex : ∃ i ∈ sort_by, packers.length ≤ i := by
          simpa using h3
        rw [if_pos h3]
        refine ⟨?_, ?_, ?_, ?_⟩ <;> simp [h1, hnd, hex]
      · have hnex : ¬ ∃ i ∈ sort_by, packers.length ≤ i := by
          simpa using h3
        rw [if_neg h3]
        have hno : ∀ q e, sortScan packers sort_by
            ((packers.headD (Packers.Float [])).num_rows) ≠
              some (q, some e) := by
          intro q e hc
          exact absurd (sortScan_no_error _ _ _ _ _ hc) (by simp)
        refine ⟨?_, ?_, ?_, ?_⟩
        · constructor
          · rintro ⟨q, e, hc⟩
            exact absurd hc (hno q e)
          · rintro (hc | hc | hc)
            · exact absurd hc h1
            · exact absurd hc (by simp [hnd])
            · exact absurd hc hnex
        · constructor
          · rintro ⟨q, hc⟩
            exact absurd hc (hno q _)
          · intro hc
            exact absurd hc h1
        · constructor
          · rintro ⟨q, hc⟩
            exact absurd hc (hno q _)
          · rintro ⟨_, hc⟩
            exact absurd hnd hc
        · constructor
          · rintro ⟨q, hc⟩
            exact absurd hc (hno q _)
          · rintro ⟨_, _, hc⟩
            exact absurd hc hnex

/-- C7: on every valid input with more than `SORTED_CHECK_SIZE` rows, if
every row compares `Equal` to row 0 under the sort keys, `sort` succeeds
with the collection unmutated (the pre-sort scan short-circuits the
engine); and on every valid input with at most `SORTED_CHECK_SIZE` rows the
pre-sort scan is not performed — `sort` returns exactly the
partition-exchange engine's result (the `0..n - 1` quicksort, or the
underflow panic at `n = 0`), whether or not the rows are presorted. -/
theorem presort_detector (packers : List Packers) (sort_by : List Nat)
    (hp : packers ≠ []) (hs : sort_by ≠ [])
    (h1 : ¬ packers.length < sort_by.length)
    (h2 : ¬ sort_by.dedup.length < sort_by.length)
    (h3 : ¬ sort_by.any (fun i => packers.length ≤ i) = true) :
    (SORTED_CHECK_SIZE < (packers.headD (Packers.Float [])).num_rows →
      (∀ i, 1 ≤ i → i < (packers.headD (Packers.Float [])).num_rows →
        cmp packers 0 i sort_by = .eq) →
      sort packers sort_by = some (packers, none)) ∧
    ((packers.headD (Packers.Float [])).num_rows ≤ SORTED_CHECK_SIZE →
      sort packers sort_by =
        (if (packers.headD (Packers.Float [])).num_rows = 0 then none
         else (quicksort_by
            ((packers.headD (Packers.Float [])).num_rows + 1) packers 0
            ((packers.headD (Packers.Float [])).num_rows - 1)
            sort_by).map (fun q => (q, none)))) := by
  have hA : (packers.isEmpty || sort_by.isEmpty) = false := by
    simp [List.isEmpty_iff, hp, hs]
  have hsort : sort packers sort_by = sortScan packers sort_by
      ((packers.headD (Packers.Float [])).num_rows) := by
    unfold sort
    rw [hA]
    simp only [Bool.false_eq_true, if_false]
    rw [if_neg h1, if_neg h2, if_neg h3]
  constructor
  · intro hbig heq
    have hn1 : 1 ≤ (packers.headD (Packers.Float [])).num_rows := by
      have : SORTED_CHECK_SIZE = 1000 := rfl
      omega
    have hpre : presorted packers
        ((packers.headD (Packers.Float [])).num_rows) sort_by = true := by
      unfold presorted
      rw [List.all_eq_true]
      intro i hi
      rw [List.mem_range'_1] at hi
      have hieq := heq i hi.1 (by omega)
      rw [hieq]
      rfl
    rw [hsort]
    unfold sortScan
    rw [if_pos (by rw [Bool.and_eq_true]; exact ⟨decide_eq_true hbig, hpre⟩)]
  · intro hle
    have hflag : (SORTED_CHECK_SIZE <
        (packers.headD (Packers.Float [])).num_rows &&
        presorted packers ((packers.headD (Packers.Float [])).num_rows)
          sort_by) ≠ true := by
      intro hc
      rw [Bool.and_eq_true] at hc
      exact absurd (of_decide_eq_true hc.1) (Nat.not_lt.mpr hle)
    rw [hsort]
    unfold sortScan
    rw [if_neg hflag]

/-- C7 witness: a single Integer key column of 1001 equal values is returned
unchanged (scan fires above the threshold), and a two-row two-column input
whose rows compare `Equal` on the key gets exactly the engine's result —
which swaps the non-key column, so no scan short-circuit happened. -/
theorem presort_detector_witness :
    sort [Packers.Integer (List.replicate 1001 (some 0))] [0] =
      some ([Packers.Integer (List.replicate 1001 (some 0))], none) ∧
    sort [Packers.Integer [some 1, some 1],
        Packers.Integer [some 10, some 20]] [0] =
      (quicksort_by 3 [Packers.Integer [some 1, some 1],
        Packers.Integer [some 10, some 20]] 0 1 [0]).map
        (fun q => (q, none)) :=
  ⟨(presort_detector [Packers.Integer (List.replicate 1001 (some 0))] [0]
    (List.cons_ne_nil _ _) (List.cons_ne_nil _ _)
    (by simp only [List.length_singleton]; omega)
    (by decide) (by decide)).1
    (by
      show SORTED_CHECK_SIZE <
        (Packers.Integer (List.replicate 1001 (some 0))).num_rows
      simp only [Packers.num_rows, List.length_replicate]
      show (1000 : Nat) < 1001
      omega)
    (by
      intro i h1i h2i
      have h2i' : i < 1001 := by
        have hnum : (Packers.Integer
            (List.replicate 1001 (some (0 : Int)))).num_rows = 1001 := by
          simp only [Packers.num_rows, List.length_replicate]
        exact hnum ▸ h2i
      have g0 : getCell (List.replicate 1001 (some (0 : Int))) 0 = some 0 := by
        unfold getCell
        rw [List.get?_eq_getElem?, List.getElem?_replicate,
          if_pos (by omega : (0 : Nat) < 1001)]
        rfl
      have gi : getCell (List.replicate 1001 (some (0 : Int))) i = some 0 := by
        unfold getCell
        rw [List.get?_eq_getElem?, List.getElem?_replicate, if_pos h2i']
        rfl
      have hcc : colCmp (colAt
          [Packers.Integer (List.replicate 1001 (some (0 : Int)))] 0) 0 i =
            .eq := by
        show optIntCmp (getCell (List.replicate 1001 (some (0 : Int))) 0)
          (getCell (List.replicate 1001 (some (0 : Int))) i) = .eq
        rw [g0, gi]
        decide
      simp only [cmp, hcc]),
   (presort_detector [Packers.Integer [some 1, some 1],
      Packers.Integer [some 10, some 20]] [0]
    (List.cons_ne_nil _ _) (List.cons_ne_nil _ _)
    (by decide) (by decide) (by decide)).2 (by decide)⟩

/-- C4 (amended) witness: at one column and key list `[1]` the only failing
condition is the out-of-bounds index, and the error is
`OutOfBoundsColumnIndex`. -/
theorem validation_errors_witness :
    ((∃ q e, sort [Packers.Integer [some 3]] [1] = some (q, some e)) ↔
      ([Packers.Integer [some 3]].length < [1].length ∨
        ¬ ([1] : List Nat).Nodup ∨
        ∃ i ∈ [1], [Packers.Integer [some 3]].length ≤ i)) ∧
    ((∃ q, sort [Packers.Integer [some 3]] [1] =
        some (q, some Error.TooManyColumns)) ↔
      [Packers.Integer [some 3]].length < [1].length) ∧
    ((∃ q, sort [Packers.Integer [some 3]] [1] =
        some (q, some Error.RepeatedColumns)) ↔
      (¬ [Packers.Integer [some 3]].length < [1].length ∧
        ¬ ([1] : List Nat).Nodup)) ∧
    ((∃ q, sort [Packers.Integer [some 3]] [1] =
        some (q, some Error.OutOfBoundsColumnIndex)) ↔
      (¬ [Packers.Integer [some 3]].length < [1].length ∧
        ([1] : List Nat).Nodup ∧
        ∃ i ∈ [1], [Packers.Integer [some 3]].length ≤ i)) :=
  validation_errors [Packers.Integer [some 3]] [1]
    (by simp) (by simp)

end sorter
